import Mathlib

/-!
Verification of the arithmetic-sequence generator (src/app.py).

Python numbers are embedded as exact values: `int` as `ℤ`, `float` as `ℚ`
(the spec describes the inputs as real numbers and sanctions exact
arithmetic for the closed-form checks).  in Python, `range(n)` yields
`0, 1, ..., n-1` and is empty when `n ≤ 0`.
-/

namespace ArithApp

/-- Python `range(n)` as a list of integers: `0, 1, ..., n-1`, empty for `n ≤ 0`. -/
def pyRange (n : ℤ) : List ℤ :=
  (List.range n.toNat).map Int.ofNat

/-- Embedding of `generate_arithmetic_sequence` (src/app.py lines 3–19):
    starts from the empty list and, for each `n` in `range(num_terms)`,
    appends `first_term + (n * common_difference)`. -/
def generate_arithmetic_sequence (first_term common_difference : ℚ) (num_terms : ℤ) : List ℚ :=
  (pyRange num_terms).foldl
    (fun (seq : List ℚ) (n : ℤ) => seq ++ [first_term + ((n : ℚ) * common_difference)]) []

/-- Folding append of `f` over a list builds `acc ++ map f`. -/
theorem foldl_append_eq_map (f : ℤ → ℚ) :
    ∀ (l : List ℤ) (acc : List ℚ),
      l.foldl (fun (seq : List ℚ) (n : ℤ) => seq ++ [f n]) acc = acc ++ l.map f := by
  intro l
  induction l with
  | nil => intro acc; simp
  | cons x xs ih => intro acc; simp [ih]

/-- The generated sequence is the image of `range` under the term formula. -/
theorem generate_eq_map (a d : ℚ) (nt : ℤ) :
    generate_arithmetic_sequence a d nt
      = (List.range nt.toNat).map (fun i : ℕ => a + (i : ℚ) * d) := by
  unfold generate_arithmetic_sequence pyRange
  rw [foldl_append_eq_map, List.map_map]
  simp [Function.comp]

/-- Embedding of the same function body with an explicit ambient state `s : S`
    threaded through every iteration of the loop (src/app.py lines 15–19).
    The loop body reads only the arguments and the local accumulator and
    writes only the local accumulator, so each step passes the ambient
    state through unchanged. -/
def generate_loop (S : Type) (a d : ℚ) : List ℤ → List ℚ × S → List ℚ × S
  | [], acc => acc
  | n :: ns, acc => generate_loop S a d ns (acc.1 ++ [a + ((n : ℚ) * d)], acc.2)

/-- Call of `generate_arithmetic_sequence` from an ambient state `s`. -/
def generate_with_state (S : Type) (s : S) (a d : ℚ) (nt : ℤ) : List ℚ × S :=
  generate_loop S a d (pyRange nt) ([], s)

/-- The stateful loop computes the foldl of the pure body and keeps the state. -/
theorem generate_loop_spec (S : Type) (a d : ℚ) :
    ∀ (l : List ℤ) (acc : List ℚ) (s : S),
      generate_loop S a d l (acc, s)
        = (l.foldl (fun (seq : List ℚ) (n : ℤ) => seq ++ [a + ((n : ℚ) * d)]) acc, s) := by
  intro l
  induction l with
  | nil => intro acc s; rfl
  | cons x xs ih => intro acc s; simp [generate_loop, List.foldl_cons, ih]

/-- The length of the generated list is `max num_terms 0`. -/
theorem generate_length (a d : ℚ) (nt : ℤ) :
    (generate_arithmetic_sequence a d nt).length = nt.toNat := by
  rw [generate_eq_map]
  simp

/-- C1: for valid `(first_term, common_difference, term_count)` with
    `1 ≤ term_count ≤ 1000`, the `i`-th element (0-indexed) of the list
    returned by `generate_arithmetic_sequence` equals
    `first_term + i * common_difference` for every index `i` in range. -/
theorem generate_nth_term (a d : ℚ) (nt : ℤ) (h1 : 1 ≤ nt) (h2 : nt ≤ 1000)
    (i : ℕ) (hi : i < (generate_arithmetic_sequence a d nt).length) :
    (generate_arithmetic_sequence a d nt).get ⟨i, hi⟩ = a + (i : ℚ) * d := by
  rw [List.get_eq_getElem]
  simp only [generate_eq_map, List.getElem_map, List.getElem_range]

/-- Witness for C1 at `(1, 1, 10)`, index 3: the fourth term is `1 + 3·1 = 4`. -/
theorem generate_nth_term_check :
    (generate_arithmetic_sequence 1 1 10).get ⟨3, by decide⟩ = 1 + (3 : ℚ) * 1 :=
  generate_nth_term 1 1 10 (by decide) (by decide) 3 (by decide)

/-- C2: for `term_count ≥ 1`, `generate_arithmetic_sequence` returns a list
    of exactly `term_count` elements. -/
theorem generate_length_eq_term_count (a d : ℚ) (nt : ℤ) (h : 1 ≤ nt) :
    ((generate_arithmetic_sequence a d nt).length : ℤ) = nt := by
  rw [generate_length]
  exact Int.toNat_of_nonneg (by omega)

/-- Witness for C2 at `(1, 1, 10)`: ten elements. -/
theorem generate_length_check :
    ((generate_arithmetic_sequence 1 1 10).length : ℤ) = 10 :=
  generate_length_eq_term_count 1 1 10 (by decide)

/-- C3 counterexample: at `term_count = 0` the function returns the empty
    list — a result, not an `InvalidArgument` failure. -/
theorem generate_zero_terms_returns_result :
    generate_arithmetic_sequence 0 0 0 = [] := by
  rfl

/-- C3 amended: `generate_arithmetic_sequence` performs no validation of
    `term_count`: it is total, returning a list of `max term_count 0`
    elements; in particular for `term_count ≤ 0` it returns the empty list
    rather than failing.  The `[1, 1000]` range is enforced only by the UI
    number-input widget, outside this function. -/
theorem generate_no_validation (a d : ℚ) (nt : ℤ) :
    ((generate_arithmetic_sequence a d nt).length : ℤ) = max nt 0 ∧
    (nt ≤ 0 → generate_arithmetic_sequence a d nt = []) := by
  constructor
  · rw [generate_length]; exact Int.toNat_eq_max nt
  · intro h
    rw [generate_eq_map]
    have : nt.toNat = 0 := by omega
    simp [this]

/-- Witness for C3 amended at `term_count = 0`. -/
theorem generate_no_validation_check :
    ((generate_arithmetic_sequence 3 4 0).length : ℤ) = max 0 0 ∧
    generate_arithmetic_sequence 3 4 0 = [] :=
  ⟨(generate_no_validation 3 4 0).1, (generate_no_validation 3 4 0).2 (by decide)⟩

/-- C9: `generate_arithmetic_sequence` is pure and deterministic.  Running
    the function body from any ambient state returns exactly the pure
    result, leaves the ambient state unchanged, and two calls from
    different ambient states (in particular, repeated calls) with identical
    arguments return identical lists. -/
theorem generate_pure_deterministic (S : Type) (s₁ s₂ : S) (a d : ℚ) (nt : ℤ) :
    (generate_with_state S s₁ a d nt).1 = generate_arithmetic_sequence a d nt ∧
    (generate_with_state S s₁ a d nt).2 = s₁ ∧
    (generate_with_state S s₁ a d nt).1 = (generate_with_state S s₂ a d nt).1 := by
  unfold generate_with_state generate_arithmetic_sequence
  rw [generate_loop_spec, generate_loop_spec]
  exact ⟨rfl, rfl, rfl⟩

/-- C10: for `term_count ≤ 0` the function returns the empty list and raises
    no error; no upper bound is enforced, so for `term_count > 1000` it
    still returns a list of `term_count` elements. -/
theorem generate_out_of_range_behavior (a d : ℚ) (nt : ℤ) :
    (nt ≤ 0 → generate_arithmetic_sequence a d nt = []) ∧
    (1000 < nt → ((generate_arithmetic_sequence a d nt).length : ℤ) = nt) := by
  constructor
  · intro h
    rw [generate_eq_map]
    have : nt.toNat = 0 := by omega
    simp [this]
  · intro h
    rw [generate_length]
    exact Int.toNat_of_nonneg (by omega)

/-- Witness for C10 at `term_count = -1` and `term_count = 1001`. -/
theorem generate_out_of_range_check :
    generate_arithmetic_sequence 0 0 (-1) = [] ∧
    ((generate_arithmetic_sequence 1 2 1001).length : ℤ) = 1001 :=
  ⟨(generate_out_of_range_behavior 0 0 (-1)).1 (by decide),
   (generate_out_of_range_behavior 1 2 1001).2 (by decide)⟩

/-- Embedding of Python `sum(sequence)` (src/app.py line 143): left fold of
    addition starting from `0`. -/
def pySum (l : List ℚ) : ℚ :=
  l.foldl (fun x y => x + y) 0

/-- Embedding of Python `min(sequence)` (src/app.py line 148): `none` on the
    empty list (Python raises `ValueError` there), else the fold of the
    binary minimum over the elements. -/
def pyMin : List ℚ → Option ℚ
  | [] => none
  | x :: xs => some (xs.foldl min x)

/-- Embedding of Python `max(sequence)` (src/app.py line 148). -/
def pyMax : List ℚ → Option ℚ
  | [] => none
  | x :: xs => some (xs.foldl max x)

/-- Embedding of the trend indicator (src/app.py line 149):
    `"Yes" if common_difference > 0 else "No" if common_difference < 0 else "Constant"` (the source quotes the labels with single quotes). -/
def trend (common_difference : ℚ) : String :=
  if common_difference > 0 then "Yes"
  else if common_difference < 0 then "No"
  else "Constant"

/-- The fold-of-addition of Python agrees with the mathematical list sum. -/
theorem pySum_eq_sum (l : List ℚ) : pySum l = l.sum := by
  rw [pySum, List.sum_eq_foldl]

/-- Gauss closed form for the sum of the first `m` terms. -/
theorem sum_range_terms (a d : ℚ) :
    ∀ m : ℕ,
      ((List.range m).map (fun i : ℕ => a + (i : ℚ) * d)).sum
        = (m : ℚ) * a + ((m : ℚ) * ((m : ℚ) - 1) / 2) * d := by
  intro m
  induction m with
  | zero => simp
  | succ k ih =>
      rw [List.range_succ, List.map_append, List.sum_append, ih]
      simp only [List.map_cons, List.map_nil, List.sum_cons, List.sum_nil]
      push_cast
      ring

/-- The fold of `min` lands in the list and bounds every element below. -/
theorem foldl_min_spec :
    ∀ (xs : List ℚ) (x : ℚ),
      xs.foldl min x ∈ x :: xs ∧ ∀ y ∈ x :: xs, xs.foldl min x ≤ y := by
  intro xs
  induction xs with
  | nil =>
      intro x
      refine ⟨by simp, ?_⟩
      intro y hy
      simp only [List.mem_singleton] at hy
      simp [hy]
  | cons z zs ih =>
      intro x
      have h := ih (min x z)
      rw [List.foldl_cons]
      constructor
      · have hm := h.1
        simp only [List.mem_cons] at hm ⊢
        rcases hm with hmem | hmem
        · rcases min_choice x z with hc | hc
          · left; rw [hmem, hc]
          · right; left; rw [hmem, hc]
        · right; right; exact hmem
      · intro y hy
        simp only [List.mem_cons] at hy
        have hle : zs.foldl min (min x z) ≤ min x z := h.2 _ (by simp)
        rcases hy with hy | hy | hy
        · exact le_trans hle (by rw [hy]; exact min_le_left x z)
        · exact le_trans hle (by rw [hy]; exact min_le_right x z)
        · exact h.2 y (by simp [hy])

/-- The fold of `max` lands in the list and bounds every element above. -/
theorem foldl_max_spec :
    ∀ (xs : List ℚ) (x : ℚ),
      xs.foldl max x ∈ x :: xs ∧ ∀ y ∈ x :: xs, y ≤ xs.foldl max x := by
  intro xs
  induction xs with
  | nil =>
      intro x
      refine ⟨by simp, ?_⟩
      intro y hy
      simp only [List.mem_singleton] at hy
      simp [hy]
  | cons z zs ih =>
      intro x
      have h := ih (max x z)
      rw [List.foldl_cons]
      constructor
      · have hm := h.1
        simp only [List.mem_cons] at hm ⊢
        rcases hm with hmem | hmem
        · rcases max_choice x z with hc | hc
          · left; rw [hmem, hc]
          · right; left; rw [hmem, hc]
        · right; right; exact hmem
      · intro y hy
        simp only [List.mem_cons] at hy
        have hle : max x z ≤ zs.foldl max (max x z) := h.2 _ (by simp)
        rcases hy with hy | hy | hy
        · exact le_trans (by rw [hy]; exact le_max_left x z) hle
        · exact le_trans (by rw [hy]; exact le_max_right x z) hle
        · exact h.2 y (by simp [hy])

/-- Cast of `toNat` back to `ℚ` for a nonnegative integer count. -/
theorem toNat_cast_rat (nt : ℤ) (h : 1 ≤ nt) : ((nt.toNat : ℕ) : ℚ) = (nt : ℚ) := by
  have := Int.toNat_of_nonneg (by omega : (0 : ℤ) ≤ nt)
  exact_mod_cast congrArg (fun z : ℤ => (z : ℚ)) this

/-- C4 counterexample: at `d = 1 > 0` the code reports the label `"Yes"`,
    not the string `"increasing"`, so the claimed iff fails. -/
theorem trend_label_not_increasing_string :
    trend 1 = "Yes" ∧ ¬(trend 1 = "increasing" ↔ (0 : ℚ) < 1) := by
  decide

/-- C4 amended: the reported trend indicator is `"Yes"` iff `d > 0`, `"No"`
    iff `d < 0`, and `"Constant"` iff `d = 0` (the code labels the line
    `Is increasing:` with these three values instead of the words of the spec,
    `increasing` / `decreasing` / `constant`); it is determined solely by
    the sign of `d`, independent of the values of the generated sequence. -/
theorem trend_sign_characterisation (d : ℚ) :
    (trend d = "Yes" ↔ 0 < d) ∧ (trend d = "No" ↔ d < 0) ∧
    (trend d = "Constant" ↔ d = 0) ∧
    (∀ e : ℚ, ((0 < d ↔ 0 < e) ∧ (d < 0 ↔ e < 0)) → trend d = trend e) := by
  have hYes : ∀ x : ℚ, 0 < x → trend x = "Yes" := by
    intro x hx; simp [trend, hx]
  have hNo : ∀ x : ℚ, x < 0 → trend x = "No" := by
    intro x hx
    have h1 : ¬x > 0 := not_lt.mpr hx.le
    simp [trend, h1, hx]
  have hC : ∀ x : ℚ, x = 0 → trend x = "Constant" := by
    intro x hx; subst hx; simp [trend]
  have htri : ∀ x : ℚ, (¬0 < x ∧ ¬x < 0) → x = 0 := by
    intro x hx; exact le_antisymm (not_lt.mp hx.1) (not_lt.mp hx.2)
  rcases lt_trichotomy d 0 with h | h | h
  · refine ⟨iff_of_false (by rw [hNo d h]; decide) (by exact not_lt.mpr h.le), ?_, ?_, ?_⟩
    · exact iff_of_true (hNo d h) h
    · exact iff_of_false (by rw [hNo d h]; decide) (by exact ne_of_lt h)
    · intro e he
      have he2 : e < 0 := he.2.mp h
      rw [hNo d h, hNo e he2]
  · refine ⟨iff_of_false (by rw [hC d h]; decide) (by rw [h]; exact lt_irrefl 0), ?_, ?_, ?_⟩
    · exact iff_of_false (by rw [hC d h]; decide) (by rw [h]; exact lt_irrefl 0)
    · exact iff_of_true (hC d h) h
    · intro e he
      have he1 : ¬0 < e := fun hc => (by rw [h] at he; exact lt_irrefl 0 (he.1.mpr hc))
      have he2 : ¬e < 0 := fun hc => (by rw [h] at he; exact lt_irrefl 0 (he.2.mpr hc))
      rw [hC d h, hC e (htri e ⟨he1, he2⟩)]
  · refine ⟨iff_of_true (hYes d h) h, ?_, ?_, ?_⟩
    · exact iff_of_false (by rw [hYes d h]; decide) (by exact not_lt.mpr h.le)
    · exact iff_of_false (by rw [hYes d h]; decide) (by exact ne_of_gt h)
    · intro e he
      have he1 : 0 < e := he.1.mp h
      rw [hYes d h, hYes e he1]

/-- Witness for C4 amended: `d = 2` and `e = 5` have the same sign, so the
    reported trend agrees. -/
theorem trend_sign_check : trend 2 = trend 5 :=
  (trend_sign_characterisation 2).2.2.2 5 (by decide)

/-- C5: over exact rational arithmetic, the average the code computes
    (`sum(sequence) / num_terms`, src/app.py line 147) on a generated
    sequence equals the closed form `a + ((n - 1) / 2) * d` for every valid
    `1 ≤ n ≤ 1000`. -/
theorem average_closed_form (a d : ℚ) (nt : ℤ) (h1 : 1 ≤ nt) (h2 : nt ≤ 1000) :
    pySum (generate_arithmetic_sequence a d nt) / (nt : ℚ)
      = a + (((nt : ℚ) - 1) / 2) * d := by
  rw [pySum_eq_sum, generate_eq_map, sum_range_terms, toNat_cast_rat nt h1]
  have hpos : (0 : ℚ) < (nt : ℚ) := by exact_mod_cast (by omega : (0 : ℤ) < nt)
  field_simp
  ring

/-- Witness for C5 at `(1, 1, 10)`: the average is `1 + (9/2)·1 = 11/2`. -/
theorem average_closed_form_check :
    pySum (generate_arithmetic_sequence 1 1 10) / ((10 : ℤ) : ℚ)
      = 1 + ((((10 : ℤ) : ℚ) - 1) / 2) * 1 :=
  average_closed_form 1 1 10 (by decide) (by decide)

/-- C6: for every non-empty generated sequence, the sum reported by the summary is the
    arithmetic sum of its elements, the average (the code divides by
    `num_terms`) equals the sum divided by the sequence length, and
    `min` / `max` are extrema: members of the sequence bounding every
    element below / above. -/
theorem summary_stats_correct (a d : ℚ) (nt : ℤ) (h : 1 ≤ nt) :
    pySum (generate_arithmetic_sequence a d nt)
        = (generate_arithmetic_sequence a d nt).sum ∧
    pySum (generate_arithmetic_sequence a d nt) / (nt : ℚ)
        = pySum (generate_arithmetic_sequence a d nt)
            / ((generate_arithmetic_sequence a d nt).length : ℚ) ∧
    (∃ m, pyMin (generate_arithmetic_sequence a d nt) = some m ∧
        m ∈ generate_arithmetic_sequence a d nt ∧
        ∀ x ∈ generate_arithmetic_sequence a d nt, m ≤ x) ∧
    (∃ M, pyMax (generate_arithmetic_sequence a d nt) = some M ∧
        M ∈ generate_arithmetic_sequence a d nt ∧
        ∀ x ∈ generate_arithmetic_sequence a d nt, x ≤ M) := by
  have hlen : ((generate_arithmetic_sequence a d nt).length : ℚ) = (nt : ℚ) := by
    rw [generate_length]; exact toNat_cast_rat nt h
  have hne : generate_arithmetic_sequence a d nt ≠ [] := by
    intro hnil
    have := generate_length a d nt
    rw [hnil] at this
    simp at this
    omega
  obtain ⟨x, xs, hx⟩ := List.exists_cons_of_ne_nil hne
  refine ⟨pySum_eq_sum _, by rw [hlen], ?_, ?_⟩
  · refine ⟨xs.foldl min x, ?_, ?_, ?_⟩
    · rw [hx]; rfl
    · rw [hx]; exact (foldl_min_spec xs x).1
    · rw [hx]; exact (foldl_min_spec xs x).2
  · refine ⟨xs.foldl max x, ?_, ?_, ?_⟩
    · rw [hx]; rfl
    · rw [hx]; exact (foldl_max_spec xs x).1
    · rw [hx]; exact (foldl_max_spec xs x).2

/-- Witness for C6 at `(1, 1, 10)`. -/
theorem summary_stats_check :
    pySum (generate_arithmetic_sequence 1 1 10)
        = (generate_arithmetic_sequence 1 1 10).sum ∧
    pySum (generate_arithmetic_sequence 1 1 10) / ((10 : ℤ) : ℚ)
        = pySum (generate_arithmetic_sequence 1 1 10)
            / ((generate_arithmetic_sequence 1 1 10).length : ℚ) ∧
    (∃ m, pyMin (generate_arithmetic_sequence 1 1 10) = some m ∧
        m ∈ generate_arithmetic_sequence 1 1 10 ∧
        ∀ x ∈ generate_arithmetic_sequence 1 1 10, m ≤ x) ∧
    (∃ M, pyMax (generate_arithmetic_sequence 1 1 10) = some M ∧
        M ∈ generate_arithmetic_sequence 1 1 10 ∧
        ∀ x ∈ generate_arithmetic_sequence 1 1 10, x ≤ M) :=
  summary_stats_correct 1 1 10 (by decide)

/-- Embedding of Python `int()` on a term value: truncation toward zero. -/
def pyInt (q : ℚ) : ℤ :=
  Int.tdiv q.num (q.den : ℤ)

/-- Nearest integer to the fraction `num / den` (`den > 0`) with ties to
    even, the rounding applied by the `%.2f` formatting of Python (here taken on
    the exact value): `f` is the floor, `r` the nonnegative remainder, and
    the fractional part `r / den` is compared with `1 / 2`. -/
def roundHalfEven (num : ℤ) (den : ℕ) : ℤ :=
  let f := num / (den : ℤ)
  let r := num - f * den
  if 2 * r < (den : ℤ) then f
  else if 2 * r > (den : ℤ) then f + 1
  else if f % 2 = 0 then f else f + 1

/-- Two-digit zero-padded rendering of a number below 100. -/
def pad2 (n : ℕ) : String :=
  if n < 10 then "0" ++ toString n else toString n

/-- Rendering of a nonnegative count of hundredths as `<units>.<dd>`. -/
def fmtHundredths (m : ℕ) : String :=
  toString (m / 100) ++ "." ++ pad2 (m % 100)

/-- Embedding of the format specifier `f"{term:.2f}"`: the value `q`, i.e.
    the fraction `(100 * q.num) / (100 * q.den)`, rounded to a count of
    hundredths and rendered with exactly two digits after the point. -/
def fmtF2 (q : ℚ) : String :=
  if roundHalfEven (100 * q.num) q.den < 0 then
    "-" ++ fmtHundredths (-(roundHalfEven (100 * q.num) q.den)).toNat
  else fmtHundredths (roundHalfEven (100 * q.num) q.den).toNat

/-- Embedding of the inline sequence display formatter (src/app.py line 117):
    `f"{term:.2f}" if term != int(term) else str(int(term))`. -/
def formatTermInline (q : ℚ) : String :=
  if q ≠ ((pyInt q : ℤ) : ℚ) then fmtF2 q else toString (pyInt q)

/-- Embedding of the labeled per-term display formatter (src/app.py
    line 138), a textually identical expression. -/
def formatTermLabeled (q : ℚ) : String :=
  if q ≠ ((pyInt q : ℤ) : ℚ) then fmtF2 q else toString (pyInt q)

/-- A rational equals its own truncation exactly when it is an integer. -/
theorem pyInt_eq_self_iff (q : ℚ) : q = ((pyInt q : ℤ) : ℚ) ↔ q.den = 1 := by
  constructor
  · intro h
    have : ((pyInt q : ℤ) : ℚ).den = 1 := Rat.den_intCast (pyInt q)
    rw [← h] at this
    exact this
  · intro h
    have hnum : pyInt q = q.num := by
      unfold pyInt
      rw [h]
      simp [Int.tdiv_one]
    rw [hnum]
    exact ((Rat.den_eq_one_iff q).mp h).symm

/-- Truncation of an integral rational is its numerator. -/
theorem pyInt_of_den_one (q : ℚ) (h : q.den = 1) : pyInt q = q.num := by
  unfold pyInt
  rw [h]
  simp [Int.tdiv_one]

/-- Zero-padded hundredths always occupy exactly two characters. -/
theorem pad2_length : ∀ r : ℕ, r < 100 → (pad2 r).length = 2 := by
  decide

/-- C7: the same formatting rule is applied at both display sites; a value
    that is mathematically an integer (equal to its own truncation, i.e.
    denominator 1) is rendered without a fractional part as its integer
    string, any other value is rendered with exactly two decimal digits,
    and concretely `5` renders as `"5"` while `5.25` renders as `"5.25"`. -/
theorem format_term_policy (q : ℚ) :
    formatTermInline q = formatTermLabeled q ∧
    (q.den = 1 → formatTermInline q = toString q.num) ∧
    (q.den ≠ 1 → ∃ s t, formatTermInline q = s ++ "." ++ t ∧ t.length = 2) ∧
    formatTermInline 5 = "5" ∧ formatTermInline (21 / 4) = "5.25" := by
  have hq : (21 / 4 : ℚ) = mkRat 21 4 := by norm_num [Rat.mkRat_eq_div]
  refine ⟨rfl, ?_, ?_, by decide, by rw [hq]; decide⟩
  · intro h
    have heq : q = ((pyInt q : ℤ) : ℚ) := (pyInt_eq_self_iff q).mpr h
    unfold formatTermInline
    rw [if_neg (not_not_intro heq), pyInt_of_den_one q h]
  · intro h
    have hne : q ≠ ((pyInt q : ℤ) : ℚ) := fun hc => h ((pyInt_eq_self_iff q).mp hc)
    unfold formatTermInline
    rw [if_pos hne]
    unfold fmtF2
    by_cases hn : roundHalfEven (100 * q.num) q.den < 0
    · rw [if_pos hn]
      refine ⟨"-" ++ toString ((-(roundHalfEven (100 * q.num) q.den)).toNat / 100),
        pad2 ((-(roundHalfEven (100 * q.num) q.den)).toNat % 100), ?_,
        pad2_length _ (Nat.mod_lt _ (by norm_num))⟩
      simp [fmtHundredths, String.append_assoc]
    · rw [if_neg hn]
      refine ⟨toString ((roundHalfEven (100 * q.num) q.den).toNat / 100),
        pad2 ((roundHalfEven (100 * q.num) q.den).toNat % 100), ?_,
        pad2_length _ (Nat.mod_lt _ (by norm_num))⟩
      simp [fmtHundredths, String.append_assoc]

/-- Witness for C7: the integral value `5` and the non-integral value
    `11/2 = 5.5` exercise both branches of the policy. -/
theorem format_term_policy_check :
    formatTermInline 5 = toString (5 : ℚ).num ∧
    (∃ s t, formatTermInline (11 / 2) = s ++ "." ++ t ∧ t.length = 2) :=
  ⟨(format_term_policy 5).2.1 (by decide),
   (format_term_policy (11 / 2)).2.2.1 (by
      have hq : (11 / 2 : ℚ) = mkRat 11 2 := by norm_num [Rat.mkRat_eq_div]
      rw [hq]
      decide)⟩

/-- Model of Python `str()` applied to a term value, the raw-value renderer
    used by the f-string interpolation `{term}`.  Python prints an integral
    float as `n.0`; a non-integral float prints as the shortest decimal
    denoting it, which has no exact counterpart over `ℚ` and is modelled
    here by the exact rational rendering.  The claims below depend only on
    this being the raw renderer, distinct from the display formatter. -/
def pyStr (q : ℚ) : String :=
  if q.den = 1 then toString q.num ++ ".0" else toString q

/-- The per-term lines of the textual export (src/app.py line 154):
    `f"Term {i+1}: {term}" for i, term in enumerate(sequence)`. -/
def exportLines (seq : List ℚ) : List String :=
  seq.enum.map (fun p => "Term " ++ toString (p.1 + 1) ++ ": " ++ pyStr p.2)

/-- Embedding of the download text (src/app.py lines 153–154): the per-term
    lines joined with newline. -/
def sequence_text (seq : List ℚ) : String :=
  String.intercalate "\n" (exportLines seq)

/-- C8: the textual export is the newline-join of exactly one line per
    term, the line for 0-indexed position `i` being
    `Term <i+1>: <value>` with the position 1-indexed and `<value>` the raw
    numeric value of the term — not the integer-versus-two-decimals display
    rendering, from which it differs already at the integral value `5`. -/
theorem export_text_format (seq : List ℚ) :
    sequence_text seq = String.intercalate "\n" (exportLines seq) ∧
    (exportLines seq).length = seq.length ∧
    (∀ i (hi : i < seq.length) (hj : i < (exportLines seq).length),
        (exportLines seq).get ⟨i, hj⟩
          = "Term " ++ toString (i + 1) ++ ": " ++ pyStr (seq.get ⟨i, hi⟩)) ∧
    pyStr 5 ≠ formatTermInline 5 := by
  refine ⟨rfl, by simp [exportLines], ?_, by decide⟩
  intro i hi hj
  rw [List.get_eq_getElem, List.get_eq_getElem]
  simp [exportLines]

/-- Witness for C8 on the one-element sequence `[5]`. -/
theorem export_text_format_check :
    (exportLines [(5 : ℚ)]).get ⟨0, by decide⟩
      = "Term " ++ toString (0 + 1) ++ ": " ++ pyStr (([(5 : ℚ)]).get ⟨0, by decide⟩) :=
  (export_text_format [(5 : ℚ)]).2.2.1 0 (by decide) (by decide)

end ArithApp
